import Mathlib

/-!
Verification of the tax-pipeline repository (three Python variants:
single_thread, shared_state, async_event_loop) against its natural-language
specification.  All decimal/float arithmetic of the source is modelled
exactly over the rationals.  Each Python source function is translated into
a Lean definition of the same name, placed in a namespace named after its
variant: `ST` for single_thread, `SS` for shared_state, `AE` for
async_event_loop.  Definitions written from the words of the specification (used
as the comparison side of refinement statements) live in namespace `SpecM`.
-/

namespace ST

/-- Translation of `int(round(x))` from single_thread/analysis.py lines
342-343 (and shared_state/analysis.py line 175): Python 3 `round` rounds to
the nearest integer with ties going to the even neighbour. -/
def pythonRound (q : ℚ) : ℤ :=
  let f : ℤ := ⌊q⌋
  let r : ℚ := q - f
  if r < 1/2 then f
  else if 1/2 < r then f + 1
  else if 2 ∣ f then f else f + 1

/-- single_thread/analysis.py `calculate_ewma` inner computation: history is
the map year_offset ↦ amount built from the income_history rows; missing
offsets default to 0 via `history.get(offset, 0.0)`. -/
def lookupAmount (history : List (ℤ × ℚ)) (k : ℤ) : ℚ :=
  (history.lookup k).getD 0

/-- single_thread/analysis.py lines 102-116: E1 = Y[-5]; then for offsets
-4, -3, -2, -1 in order, e = alpha * Y[offset] + (1 - alpha) * e, with
alpha = 0.6. -/
def calculate_ewma (history : List (ℤ × ℚ)) : ℚ :=
  let alpha : ℚ := 6/10
  let e1 := lookupAmount history (-5)
  [(-4 : ℤ), -3, -2, -1].foldl
    (fun e k => alpha * lookupAmount history k + (1 - alpha) * e) e1

/-- Deduction method strings used by single_thread/analysis.py. -/
inductive DedMethod where
  | Itemized
  | Standard
deriving DecidableEq

/-- single_thread/analysis.py lines 207-229: the federal bracket chunks.
chunk1 = min(rem, 100000) at 5 percent, then three guarded chunks at
10, 15 and 20 percent. -/
def bracketTaxFed (taxable : ℚ) : ℚ :=
  let rem0 := taxable
  let chunk1 := min rem0 100000
  let t1 := chunk1 * (5/100)
  let rem1 := rem0 - chunk1
  let t2 := if 0 < rem1 then (min rem1 100000) * (10/100) else 0
  let rem2 := if 0 < rem1 then rem1 - min rem1 100000 else rem1
  let t3 := if 0 < rem2 then (min rem2 100000) * (15/100) else 0
  let rem3 := if 0 < rem2 then rem2 - min rem2 100000 else rem2
  let t4 := if 0 < rem3 then rem3 * (20/100) else 0
  t1 + t2 + t3 + t4

/-- Result record of single_thread `calculate_federal_tax` (the columns the
code writes into federal_calculations, lines 234-242). -/
structure FedResult where
  gross_income : ℚ
  surcharge : ℚ
  charitable : ℚ
  itemized_total : ℚ
  deduction_val : ℚ
  deduction_method : DedMethod
  taxable_income : ℚ
  bracket_tax : ℚ
  final_federal_tax : ℚ

/-- single_thread/analysis.py lines 148-231 (`calculate_federal_tax`, body
for one row): gross = w2 + net capital gain; surcharge = 2 percent of gross
iff ewma > 1000000; charitable = sum of donations; child rate =
min(num_children, 10) * 0.01; child deduction = rate * (gross - charitable)
when that base is positive; itemized = charitable + child deduction;
deduction = itemized iff itemized > 10000 else the 10000 standard;
taxable = max(0, gross - deduction); brackets; total = brackets + surcharge. -/
def calculate_federal_tax (w2 net_cap_gain ewma : ℚ) (num_children : ℕ)
    (donations : List ℚ) : FedResult :=
  let gross_income := w2 + net_cap_gain
  let surcharge := if 1000000 < ewma then (2/100) * gross_income else 0
  let charitable_ded := donations.sum
  let taxable_base_for_child := gross_income - charitable_ded
  let child_rate := (min (num_children : ℚ) 10) * (1/100)
  let child_ded_val := if 0 < taxable_base_for_child
      then child_rate * taxable_base_for_child else 0
  let itemized_total := charitable_ded + child_ded_val
  let standard_ded : ℚ := 10000
  let deduction_val := if standard_ded < itemized_total then itemized_total
      else standard_ded
  let deduction_method := if standard_ded < itemized_total then DedMethod.Itemized
      else DedMethod.Standard
  let taxable_income := max 0 (gross_income - deduction_val)
  let bracket_tax := bracketTaxFed taxable_income
  { gross_income := gross_income
  , surcharge := surcharge
  , charitable := charitable_ded
  , itemized_total := itemized_total
  , deduction_val := deduction_val
  , deduction_method := deduction_method
  , taxable_income := taxable_income
  , bracket_tax := bracket_tax
  , final_federal_tax := bracket_tax + surcharge }

/-- single_thread/analysis.py lines 309-325: the Texas bracket chunks:
min(rem, 90000) at 3 percent, then min(rem, 110000) at 5 percent, then the
rest at 7 percent. -/
def bracketTaxTexas (taxable : ℚ) : ℚ :=
  let rem0 := taxable
  let chunk1 := min rem0 90000
  let t1 := chunk1 * (3/100)
  let rem1 := rem0 - chunk1
  let t2 := if 0 < rem1 then (min rem1 110000) * (5/100) else 0
  let rem2 := if 0 < rem1 then rem1 - min rem1 110000 else rem1
  let t3 := if 0 < rem2 then rem2 * (7/100) else 0
  t1 + t2 + t3

/-- single_thread/analysis.py lines 272-334 (`calculate_state_tax`, body for
one row, the final_state_tax value): California = 4 percent of w2 plus
6 percent of max(0, net gain), times 1.05 iff the federal surcharge amount
is positive; Texas = Texas brackets on the federal taxable income, times
0.99 iff the deduction used (itemized value if the method was Itemized,
standard value otherwise) exceeds 15000; any other state leaves the
initialised 0.0. -/
def calculate_state_tax (state : String) (w2 net_capital_gain surcharge_amount
    taxable_income item_val std_val : ℚ) (deduction_method : DedMethod) : ℚ :=
  if state = "California" then
    let ca_tax_base := (4/100) * w2 + (6/100) * max 0 net_capital_gain
    if 0 < surcharge_amount then ca_tax_base * (105/100) else ca_tax_base
  else if state = "Texas" then
    let tx_tax := bracketTaxTexas taxable_income
    let deduction_used := if deduction_method = DedMethod.Itemized
        then item_val else std_val
    if 15000 < deduction_used then tx_tax * (99/100) else tx_tax
  else 0

end ST

namespace AE

/-- async_event_loop/analysis_engine.py lines 14-16 `round_dollar`:
Decimal quantize to a whole unit with ROUND_HALF_UP, which rounds to the
nearest integer with ties going away from zero. -/
def round_dollar (d : ℚ) : ℤ :=
  if 0 ≤ d then ⌊d + 1/2⌋ else -⌊-d + 1/2⌋

/-- async_event_loop/ingestion.py lines 12-32 `calculate_ewma`:
e = history[0]; for each later entry y, e = 0.6 * y + 0.4 * e.  The source
indexes history[0] directly (the input always carries five values); an empty
list is totalised to 0. -/
def calculate_ewma (history : List ℚ) : ℚ :=
  match history with
  | [] => 0
  | h :: t => t.foldl (fun e y => (6/10) * y + (1 - (6/10)) * e) h

/-- async_event_loop/analysis_engine.py lines 18-34 `calculate_bracket_tax`
loop: previous_limit starts at 0; a bracket is a pair (limit, rate) where
`none` stands for Decimal Infinity; while income > previous_limit the
portion min(income, limit) - previous_limit is taxed at rate, and
previous_limit becomes limit; otherwise the loop breaks. -/
def bracketLoop (income : ℚ) : Option ℚ → List (Option ℚ × ℚ) → ℚ
  | _, [] => 0
  | prev, (lim, rate) :: rest =>
    match prev with
    | none => 0
    | some p =>
      if p < income then
        let cap := match lim with
          | none => income
          | some l => min income l
        (cap - p) * rate + bracketLoop income lim rest
      else 0

/-- async_event_loop/analysis_engine.py `calculate_bracket_tax` entry point
(previous_limit initialised to Decimal 0). -/
def calculate_bracket_tax (income : ℚ) (brackets : List (Option ℚ × ℚ)) : ℚ :=
  bracketLoop income (some 0) brackets

/-- The federal bracket table of async_event_loop/analysis_engine.py
lines 156-161. -/
def fedBrackets : List (Option ℚ × ℚ) :=
  [(some 100000, 5/100), (some 200000, 10/100), (some 300000, 15/100),
   (none, 20/100)]

/-- The Texas bracket table of async_event_loop/analysis_engine.py
lines 205-209. -/
def txBrackets : List (Option ℚ × ℚ) :=
  [(some 90000, 3/100), (some 200000, 5/100), (none, 7/100)]

/-- Deduction type strings used by async_event_loop/analysis_engine.py. -/
inductive DedType where
  | ITEMIZED
  | STANDARD
deriving DecidableEq

/-- The dictionary returned by async `calculate_federal_tax`
(lines 171-177), plus the selected deduction amount, which the caller
recovers separately. -/
structure FedData where
  gross : ℚ
  taxable : ℚ
  deduction_type : DedType
  deduction_amount : ℚ
  surcharge : ℚ
  total : ℚ

/-- async_event_loop/analysis_engine.py lines 118-177
(`calculate_federal_tax`): gross = w2 + net gain; standard = 10000;
charitable = sum of donations; child rate = min(children * 0.01, 0.10);
child deduction = max(0, gross - charitable) * rate; itemized = charitable +
child deduction; select itemized iff it strictly exceeds the standard;
taxable = max(0, gross - deduction); brackets; surcharge = gross * 0.02 iff
ewma > 1000000; total = brackets + surcharge. -/
def calculate_federal_tax (w2_income net_capital_gain ewma_income : ℚ)
    (num_children : ℕ) (donations : List ℚ) : FedData :=
  let gross_income := w2_income + net_capital_gain
  let std_deduction : ℚ := 10000
  let charitable_total := donations.sum
  let child_rate := min ((num_children : ℚ) * (1/100)) (10/100)
  let base_for_child := max 0 (gross_income - charitable_total)
  let child_deduction := base_for_child * child_rate
  let itemized_total := charitable_total + child_deduction
  let deduction_amount := if std_deduction < itemized_total then itemized_total
      else std_deduction
  let deduction_type := if std_deduction < itemized_total then DedType.ITEMIZED
      else DedType.STANDARD
  let taxable_income := max 0 (gross_income - deduction_amount)
  let bracket_tax := calculate_bracket_tax taxable_income fedBrackets
  let surcharge := if 1000000 < ewma_income then gross_income * (2/100) else 0
  { gross := gross_income
  , taxable := taxable_income
  , deduction_type := deduction_type
  , deduction_amount := deduction_amount
  , surcharge := surcharge
  , total := bracket_tax + surcharge }

/-- async_event_loop/analysis_engine.py lines 183-216 `calculate_state_tax`:
returns the pair (state_tax, state_surcharge).  California: base = 0.04 * w2
+ 0.06 * max(0, net gain); surcharge = 5 percent of the base iff the federal
surcharge is positive; tax = base + surcharge.  Texas: bracket tax on the
federal taxable income, times 0.99 iff fed_deduction_amount > 15000.  Any
other state returns (0, 0). -/
def calculate_state_tax (state : String) (w2_income net_capital_gain
    fed_surcharge fed_taxable fed_deduction_amount : ℚ) : ℚ × ℚ :=
  if state = "California" then
    let ca_gains_tax := (6/100) * max 0 net_capital_gain
    let ca_wage_tax := (4/100) * w2_income
    let base_tax := ca_wage_tax + ca_gains_tax
    let state_surcharge := if 0 < fed_surcharge then base_tax * (5/100) else 0
    (base_tax + state_surcharge, state_surcharge)
  else if state = "Texas" then
    let tx := calculate_bracket_tax fed_taxable txBrackets
    (if 15000 < fed_deduction_amount then tx * (99/100) else tx, 0)
  else (0, 0)

end AE

namespace SpecM

/-- Modelled from the spec: the five-step EWMA recurrence of section 4.2,
E1 = Y[-5] and Ek = 0.6 * Y[-(6-k)] + 0.4 * E(k-1) for k = 2..5, returning
E5. -/
def ewma5 (y1 y2 y3 y4 y5 : ℚ) : ℚ :=
  let a : ℚ := 6/10
  let e1 := y1
  let e2 := a * y2 + (1 - a) * e1
  let e3 := a * y3 + (1 - a) * e2
  let e4 := a * y4 + (1 - a) * e3
  let e5 := a * y5 + (1 - a) * e4
  e5

/-- Modelled from the spec: the marginal federal bracket formula of section
4.3 step 8 — each bracket taxes only the portion of income lying in its
range: [0,100000) at 5 percent, [100000,200000) at 10, [200000,300000) at
15, [300000,inf) at 20. -/
def fedMarginal (x : ℚ) : ℚ :=
  (5/100) * min x 100000
  + (10/100) * (min x 200000 - min x 100000)
  + (15/100) * (min x 300000 - min x 200000)
  + (20/100) * (x - min x 300000)

/-- Modelled from the spec: the marginal Texas bracket formula of section
4.4 — [0,90000) at 3 percent, [90000,200000) at 5, [200000,inf) at 7. -/
def txMarginal (x : ℚ) : ℚ :=
  (3/100) * min x 90000
  + (5/100) * (min x 200000 - min x 90000)
  + (7/100) * (x - min x 200000)

end SpecM

namespace ST

/-- A purchase row of single_thread (asset_purchases): asset, quantity,
unit_price. -/
structure Purchase where
  asset : String
  quantity : ℚ
  unit_price : ℚ
deriving DecidableEq

/-- A sale row of single_thread (asset_sales). -/
structure Sale where
  asset : String
  quantity : ℚ
  unit_price : ℚ
deriving DecidableEq

/-- A purchase dict of single_thread after the initialisation of the remaining field to the quantity (lines 34-35). -/
structure PLot where
  asset : String
  quantity : ℚ
  unit_price : ℚ
  remaining : ℚ
deriving DecidableEq

/-- single_thread/analysis.py lines 44-57: the `for p in purchases` loop of
one sale.  Walks the purchase list front to back; breaks once the quantity
to sell is exhausted; takes min(qty_to_sell, p.remaining) from every lot
with positive remaining quantity, regardless of the asset of the lot,
accumulating cost basis taken * p.unit_price.  Returns (qty still to sell,
cost basis for the sale, updated purchase list). -/
def matchSale : ℚ → List PLot → ℚ × ℚ × List PLot
  | q, [] => (q, 0, [])
  | q, p :: ps =>
    if q ≤ 0 then (q, 0, p :: ps)
    else if 0 < p.remaining then
      let taken := min q p.remaining
      let res := matchSale (q - taken) ps
      (res.1, taken * p.unit_price + res.2.1,
        { p with remaining := p.remaining - taken } :: res.2.2)
    else
      let res := matchSale q ps
      (res.1, res.2.1, p :: res.2.2)

/-- single_thread/analysis.py lines 37-66: the `for sale in sales` loop.
Each sale contributes gain = sale.quantity * sale.unit_price minus the
matched cost basis; the remaining quantities carry over to later sales. -/
def runSales : List PLot → List Sale → ℚ
  | _, [] => 0
  | lots, s :: ss =>
    let res := matchSale s.quantity lots
    (s.quantity * s.unit_price - res.2.1) + runSales res.2.2 ss

/-- Initialisation of the remaining fields (lines 34-35). -/
def initLots (purchases : List Purchase) : List PLot :=
  purchases.map (fun p =>
    { asset := p.asset, quantity := p.quantity, unit_price := p.unit_price
    , remaining := p.quantity })

/-- single_thread/analysis.py lines 17-68 `calculate_capital_gains`, the
realized_gains accumulator for one taxpayer: purchases and sales are given
in (date, id) order by the SQL queries. -/
def calculate_capital_gains (purchases : List Purchase) (sales : List Sale) : ℚ :=
  runSales (initLots purchases) sales

/-- Total quantity still available over the open lots of a pool. -/
def availQty : List PLot → ℚ
  | [] => 0
  | p :: ps => (if 0 < p.remaining then p.remaining else 0) + availQty ps

/-- Total cost basis of the open lots of a pool. -/
def openBasis : List PLot → ℚ
  | [] => 0
  | p :: ps => (if 0 < p.remaining then p.remaining * p.unit_price else 0)
      + openBasis ps

/-- Gain realised by selling the whole open pool at a given price. -/
def openGain (price : ℚ) : List PLot → ℚ
  | [] => 0
  | p :: ps => (if 0 < p.remaining then p.remaining * (price - p.unit_price) else 0)
      + openGain price ps

end ST

namespace AE

/-- A BUY entry of the async portfolio (analysis_engine.py lines 70-74):
transaction id, unit price and remaining quantity. -/
structure Lot where
  id : ℕ
  price : ℚ
  remaining : ℚ
deriving DecidableEq

/-- A realized_gains audit row (analysis_engine.py lines 103-106), with the
price of the matched lot carried alongside. -/
structure MatchRec where
  buy_id : ℕ
  buy_price : ℚ
  matched_quantity : ℚ
  gain_amount : ℚ
deriving DecidableEq

/-- Result of the SELL while-loop: total gain, updated lot list, whether the
overselling warning fired, and the emitted realized-gain records. -/
structure SellResult where
  gain : ℚ
  lots : List Lot
  oversold : Bool
  recs : List MatchRec
deriving DecidableEq

/-- async_event_loop/analysis_engine.py lines 76-110, the SELL while-loop:
while shares_to_sell > 0, the earliest lot with positive remaining quantity
is matched for min(shares_to_sell, remaining), emitting a realized-gain
record with gain = matched * (sell_price - buy_price); if no open lot is
left a warning is logged and matching stops.  The loop revisits the list
from the front each iteration but lots before the current open one stay
closed, so it is rendered as a single front-to-back walk: reaching the end
of the list with shares still to sell is exactly the warning case. -/
def sellFIFO (sell_price : ℚ) : ℚ → List Lot → SellResult
  | q, [] => ⟨0, [], decide (0 < q), []⟩
  | q, b :: bs =>
    if q ≤ 0 then ⟨0, b :: bs, false, []⟩
    else if 0 < b.remaining then
      let m := min q b.remaining
      let g := m * (sell_price - b.price)
      let res := sellFIFO sell_price (q - m) bs
      ⟨g + res.gain, { b with remaining := b.remaining - m } :: res.lots,
        res.oversold, ⟨b.id, b.price, m, g⟩ :: res.recs⟩
    else
      let res := sellFIFO sell_price q bs
      ⟨res.gain, b :: res.lots, res.oversold, res.recs⟩

/-- Transaction types of the asset_transactions table. -/
inductive TType where
  | BUY
  | SELL
deriving DecidableEq

/-- A row of asset_transactions as fetched by process_capital_gains
(ordered by transaction_date, transaction_id). -/
structure Txn where
  transaction_id : ℕ
  ttype : TType
  asset : String
  quantity : ℚ
  unit_price : ℚ

/-- The `portfolio` dict of analysis_engine.py line 54: every asset maps to
its list of BUY lots (absent keys behave as the empty list, matching the
`if asset not in portfolio` initialisation). -/
def Portfolio := String → List Lot

/-- The initially empty portfolio. -/
def emptyPortfolio : Portfolio := fun _ => []

/-- Result of processing one transaction. -/
structure StepResult where
  portfolio : Portfolio
  gain : ℚ
  oversold : Bool
  recs : List MatchRec

/-- One iteration of the `for txn in transactions` loop (lines 58-110):
a BUY appends a lot (id, price, remaining = quantity) to the list of its asset;
a SELL runs the FIFO while-loop on the list of its asset only. -/
def applyTxn (pf : Portfolio) (t : Txn) : StepResult :=
  match t.ttype with
  | TType.BUY =>
    let lots := pf t.asset ++ [⟨t.transaction_id, t.unit_price, t.quantity⟩]
    ⟨fun a => if a = t.asset then lots else pf a, 0, false, []⟩
  | TType.SELL =>
    let res := sellFIFO t.unit_price t.quantity (pf t.asset)
    ⟨fun a => if a = t.asset then res.lots else pf a, res.gain, res.oversold,
      res.recs⟩

/-- The realized_gains_total accumulation over the transaction list. -/
def runTxns : Portfolio → List Txn → ℚ
  | _, [] => 0
  | pf, t :: ts => (applyTxn pf t).gain + runTxns (applyTxn pf t).portfolio ts

/-- async_event_loop/analysis_engine.py lines 40-112 `process_capital_gains`
for one taxpayer: the returned net realized gain. -/
def process_capital_gains (txs : List Txn) : ℚ := runTxns emptyPortfolio txs

/-- The portfolio state after processing a transaction list. -/
def portfolioAfter (txs : List Txn) : Portfolio :=
  txs.foldl (fun pf t => (applyTxn pf t).portfolio) emptyPortfolio

/-- Number of overselling warnings logged while processing the list. -/
def warningsCount : Portfolio → List Txn → ℕ
  | _, [] => 0
  | pf, t :: ts => (if (applyTxn pf t).oversold then 1 else 0)
      + warningsCount (applyTxn pf t).portfolio ts

/-- Total quantity remaining over the open lots of a list. -/
def availQty : List Lot → ℚ
  | [] => 0
  | b :: bs => (if 0 < b.remaining then b.remaining else 0) + availQty bs

/-- Gain realised by selling every open lot of the list in full at a given
price. -/
def openGain (price : ℚ) : List Lot → ℚ
  | [] => 0
  | b :: bs => (if 0 < b.remaining then b.remaining * (price - b.price) else 0)
      + openGain price bs

/-- Ids of the lots, in sequence order. -/
def SortedIds (lots : List Lot) : Prop :=
  lots.Pairwise (fun a b => a.id < b.id)

/-- Transaction ids strictly increase along the list (data model section 3:
ids are strictly increasing per household in chronological order). -/
def IdsIncreasing (txs : List Txn) : Prop :=
  txs.Pairwise (fun s t => s.transaction_id < t.transaction_id)

end AE

namespace SpecM

/-- Modelled from the spec (section 4.1, step 2): the open lot with the
smallest id among the lots with remaining_quantity > 0, together with its
position in the per-asset sequence. -/
def minIdOpen : List AE.Lot → Option (ℕ × AE.Lot)
  | [] => none
  | b :: bs =>
    match minIdOpen bs with
    | none => if 0 < b.remaining then some (0, b) else none
    | some (j, c) =>
      if 0 < b.remaining then
        if b.id ≤ c.id then some (0, b) else some (j + 1, c)
      else some (j + 1, c)

/-- Number of open lots of a list (termination measure for the matching
rounds). -/
def openCount : List AE.Lot → ℕ
  | [] => 0
  | b :: bs => (if 0 < b.remaining then 1 else 0) + openCount bs

theorem minIdOpen_get : ∀ (lots : List AE.Lot) (i : ℕ) (b : AE.Lot),
    minIdOpen lots = some (i, b) → lots[i]? = some b ∧ 0 < b.remaining := by
  intro lots
  induction lots with
  | nil => intro i b h; simp [minIdOpen] at h
  | cons p ps ih =>
    intro i b h
    rcases hm : minIdOpen ps with _ | ⟨j, c⟩ <;>
      simp only [minIdOpen, hm] at h
    · by_cases hp : 0 < p.remaining
      · simp only [if_pos hp, Option.some.injEq, Prod.mk.injEq] at h
        obtain ⟨hi, hb⟩ := h
        subst hi; subst hb; exact ⟨by simp, hp⟩
      · simp [hp] at h
    · by_cases hp : 0 < p.remaining
      · by_cases hid : p.id ≤ c.id
        · simp only [if_pos hp, if_pos hid, Option.some.injEq, Prod.mk.injEq] at h
          obtain ⟨hi, hb⟩ := h
          subst hi; subst hb; exact ⟨by simp, hp⟩
        · simp only [if_pos hp, if_neg hid, Option.some.injEq, Prod.mk.injEq] at h
          obtain ⟨hi, hb⟩ := h
          subst hi; subst hb
          obtain ⟨hg, hr⟩ := ih j c hm
          exact ⟨by simpa using hg, hr⟩
      · simp only [if_neg hp, Option.some.injEq, Prod.mk.injEq] at h
        obtain ⟨hi, hb⟩ := h
        subst hi; subst hb
        obtain ⟨hg, hr⟩ := ih j c hm
        exact ⟨by simpa using hg, hr⟩

theorem openCount_set_lt : ∀ (lots : List AE.Lot) (i : ℕ) (b y : AE.Lot),
    lots[i]? = some b → 0 < b.remaining → ¬ 0 < y.remaining →
    openCount (lots.set i y) < openCount lots := by
  intro lots
  induction lots with
  | nil => intro i b y h; simp at h
  | cons p ps ih =>
    intro i b y h hb hy
    cases i with
    | zero =>
      simp only [List.getElem?_cons_zero, Option.some.injEq] at h
      subst h
      simp only [List.set_cons_zero, openCount]
      rw [if_pos hb, if_neg hy]
      omega
    | succ j =>
      simp only [List.getElem?_cons_succ] at h
      simp only [List.set_cons_succ, openCount]
      have := ih j b y h hb hy
      omega

end SpecM

namespace SpecM

/-- Modelled from the spec (section 4.1, steps 1-3, and claim wording): for
one SELL, repeatedly take the open lot with the smallest id of the sequence of that asset; matched = min(remaining, lot.remaining_quantity); emit a record
with gain = matched * (sell.price - lot.price); decrement both quantities;
continue until remaining = 0 or no open lots remain (then the overselling
warning fires). -/
def sellRounds (sell_price : ℚ) (remaining : ℚ) (lots : List AE.Lot) :
    AE.SellResult :=
  if remaining ≤ 0 then ⟨0, lots, false, []⟩
  else
    match h : minIdOpen lots with
    | none => ⟨0, lots, true, []⟩
    | some (i, b) =>
      let matched := min remaining b.remaining
      let g := matched * (sell_price - b.price)
      let lots1 := lots.set i { b with remaining := b.remaining - matched }
      if remaining ≤ b.remaining then
        ⟨g, lots1, false, [⟨b.id, b.price, matched, g⟩]⟩
      else
        let res := sellRounds sell_price (remaining - matched) lots1
        ⟨g + res.gain, res.lots, res.oversold, ⟨b.id, b.price, matched, g⟩ :: res.recs⟩
termination_by openCount lots
decreasing_by
  rename_i hrem hle
  obtain ⟨hg, hb⟩ := minIdOpen_get lots i b h
  refine openCount_set_lt lots i b _ hg hb ?_
  have hlt : b.remaining < remaining := lt_of_not_le hle
  have : min remaining b.remaining = b.remaining := min_eq_right hlt.le
  simp only [this]
  simp

/-- Modelled from the spec: one transaction step of the per-asset FIFO
matcher — a BUY appends an open lot to the sequence of its asset in insertion
order; a SELL is matched by `sellRounds` against the sequence of that
asset only. -/
def applyTxn (pf : AE.Portfolio) (t : AE.Txn) : AE.StepResult :=
  match t.ttype with
  | AE.TType.BUY =>
    let lots := pf t.asset ++ [⟨t.transaction_id, t.unit_price, t.quantity⟩]
    ⟨fun a => if a = t.asset then lots else pf a, 0, false, []⟩
  | AE.TType.SELL =>
    let res := sellRounds t.unit_price t.quantity (pf t.asset)
    ⟨fun a => if a = t.asset then res.lots else pf a, res.gain, res.oversold,
      res.recs⟩

/-- Modelled from the spec: accumulation of the per-match gains over the
transaction list. -/
def runTxns : AE.Portfolio → List AE.Txn → ℚ
  | _, [] => 0
  | pf, t :: ts => (applyTxn pf t).gain + runTxns (applyTxn pf t).portfolio ts

/-- Modelled from the spec (section 4.1): net realized capital gain of a
ordered transaction list of a household under per-asset smallest-open-id FIFO
matching. -/
def fifoGains (txs : List AE.Txn) : ℚ := runTxns AE.emptyPortfolio txs

end SpecM

namespace SpecM

/-- Modelled from the FIFO wording of the spec, applied to one household-wide
pool: walking the pool front to back, each open lot yields a match of
min(still to sell, lot.remaining) at the price of the lot.  Returns the list of
(matched quantity, lot price) pairs, the unmatched leftover quantity, and
the updated pool. -/
def poolMatches : ℚ → List ST.PLot → List (ℚ × ℚ) × ℚ × List ST.PLot
  | q, [] => ([], q, [])
  | q, p :: ps =>
    if q ≤ 0 then ([], q, p :: ps)
    else if 0 < p.remaining then
      let taken := min q p.remaining
      let res := poolMatches (q - taken) ps
      ((taken, p.unit_price) :: res.1, res.2.1,
        { p with remaining := p.remaining - taken } :: res.2.2)
    else
      let res := poolMatches q ps
      (res.1, res.2.1, p :: res.2.2)

/-- Modelled from the spec: gain of one sale under household-wide pool
matching when the unmatched remainder is treated as zero-cost-basis: the
sum of the per-match gains matched * (sell price - lot price) plus
leftover * sell price. -/
def poolSaleGain (q price : ℚ) (lots : List ST.PLot) : ℚ :=
  let res := poolMatches q lots
  ((res.1.map (fun mb => mb.1 * (price - mb.2))).sum) + res.2.1 * price

/-- Modelled from the spec: the net gain of the household under the pool view,
sale by sale. -/
def poolGains : List ST.PLot → List ST.Sale → ℚ
  | _, [] => 0
  | lots, s :: ss =>
    poolSaleGain s.quantity s.unit_price lots
      + poolGains (poolMatches s.quantity lots).2.2 ss

/-- Modelled from the spec: per-match pool gains starting from the raw
purchase list. -/
def poolGainsOf (purchases : List ST.Purchase) (sales : List ST.Sale) : ℚ :=
  poolGains (ST.initLots purchases) sales

theorem matchSale_eq_pool : ∀ (lots : List ST.PLot) (q : ℚ),
    ST.matchSale q lots =
      ((poolMatches q lots).2.1,
       ((poolMatches q lots).1.map (fun mb => mb.1 * mb.2)).sum,
       (poolMatches q lots).2.2) := by
  intro lots
  induction lots with
  | nil => intro q; simp [ST.matchSale, poolMatches]
  | cons p ps ih =>
    intro q
    by_cases hq : q ≤ 0
    · simp [ST.matchSale, poolMatches, hq]
    · by_cases hp : 0 < p.remaining
      · simp only [ST.matchSale, poolMatches, if_neg hq, if_pos hp, ih]
        simp [add_comm]
      · simp only [ST.matchSale, poolMatches, if_neg hq, if_neg hp, ih]

theorem poolMatches_total : ∀ (lots : List ST.PLot) (q : ℚ),
    (poolMatches q lots).2.1 + ((poolMatches q lots).1.map Prod.fst).sum = q := by
  intro lots
  induction lots with
  | nil => intro q; simp [poolMatches]
  | cons p ps ih =>
    intro q
    by_cases hq : q ≤ 0
    · simp [poolMatches, hq]
    · by_cases hp : 0 < p.remaining
      · simp only [poolMatches, if_neg hq, if_pos hp, List.map_cons, List.sum_cons]
        have := ih (q - min q p.remaining)
        linarith
      · simp only [poolMatches, if_neg hq, if_neg hp]
        exact ih q

end SpecM

namespace SpecM

theorem sum_map_gain (price : ℚ) : ∀ (ms : List (ℚ × ℚ)),
    (ms.map (fun mb => mb.1 * (price - mb.2))).sum
      = price * (ms.map Prod.fst).sum - (ms.map (fun mb => mb.1 * mb.2)).sum := by
  intro ms
  induction ms with
  | nil => simp
  | cons m ms ih =>
    simp only [List.map_cons, List.sum_cons, ih]
    ring

theorem runSales_eq_poolGains : ∀ (sales : List ST.Sale) (lots : List ST.PLot),
    ST.runSales lots sales = poolGains lots sales := by
  intro sales
  induction sales with
  | nil => intro lots; rfl
  | cons s ss ih =>
    intro lots
    simp only [ST.runSales, poolGains, matchSale_eq_pool, ih]
    have htot := poolMatches_total lots s.quantity
    simp only [poolSaleGain, sum_map_gain]
    have hkey : s.unit_price * ((poolMatches s.quantity lots).1.map Prod.fst).sum
        + (poolMatches s.quantity lots).2.1 * s.unit_price
        = s.quantity * s.unit_price := by
      linear_combination s.unit_price * htot
    linarith

end SpecM

namespace ST

theorem availQty_nonneg : ∀ (lots : List PLot), 0 ≤ availQty lots := by
  intro lots
  induction lots with
  | nil => simp [availQty]
  | cons p ps ih =>
    simp only [availQty]
    by_cases hp : 0 < p.remaining
    · rw [if_pos hp]; linarith
    · rw [if_neg hp]; linarith

theorem openBasis_of_avail_zero : ∀ (lots : List PLot),
    availQty lots = 0 → openBasis lots = 0 := by
  intro lots
  induction lots with
  | nil => intro _; rfl
  | cons p ps ih =>
    intro h
    simp only [availQty] at h
    have hps := availQty_nonneg ps
    by_cases hp : 0 < p.remaining
    · rw [if_pos hp] at h; linarith
    · rw [if_neg hp] at h
      simp only [openBasis, if_neg hp, zero_add]
      exact ih (by linarith)

theorem openGain_eq (price : ℚ) : ∀ (lots : List PLot),
    openGain price lots = availQty lots * price - openBasis lots := by
  intro lots
  induction lots with
  | nil => simp [openGain, availQty, openBasis]
  | cons p ps ih =>
    simp only [openGain, availQty, openBasis, ih]
    by_cases hp : 0 < p.remaining
    · simp only [if_pos hp]; ring
    · simp only [if_neg hp]; ring

theorem matchSale_oversell : ∀ (lots : List PLot) (q : ℚ),
    availQty lots ≤ q →
    (matchSale q lots).1 = q - availQty lots
      ∧ (matchSale q lots).2.1 = openBasis lots := by
  intro lots
  induction lots with
  | nil => intro q _; simp [matchSale, availQty, openBasis]
  | cons p ps ih =>
    intro q hq
    have hps := availQty_nonneg ps
    by_cases hq0 : q ≤ 0
    · have h0 : availQty (p :: ps) = 0 := by
        have := availQty_nonneg (p :: ps)
        linarith
      simp only [matchSale, if_pos hq0, h0, sub_zero]
      exact ⟨by simp, (openBasis_of_avail_zero _ h0).symm⟩
    · by_cases hp : 0 < p.remaining
      · simp only [availQty, if_pos hp] at hq
        have hple : p.remaining ≤ q := by linarith
        have hmin : min q p.remaining = p.remaining := min_eq_right hple
        simp only [matchSale, if_neg hq0, if_pos hp, hmin]
        obtain ⟨h1, h2⟩ := ih (q - p.remaining) (by linarith)
        constructor
        · rw [h1]; simp only [availQty, if_pos hp]; ring
        · rw [h2]; simp only [openBasis, if_pos hp]
      · simp only [availQty, if_neg hp, zero_add] at hq
        simp only [matchSale, if_neg hq0, if_neg hp]
        obtain ⟨h1, h2⟩ := ih q hq
        refine ⟨?_, ?_⟩
        · rw [h1]; simp only [availQty, if_neg hp, zero_add]
        · rw [h2]; simp only [openBasis, if_neg hp, zero_add]

end ST

namespace AE

theorem lotAvail_nonneg : ∀ (lots : List Lot), 0 ≤ availQty lots := by
  intro lots
  induction lots with
  | nil => simp [availQty]
  | cons b bs ih =>
    simp only [availQty]
    by_cases hb : 0 < b.remaining
    · rw [if_pos hb]; linarith
    · rw [if_neg hb]; linarith

theorem sellFIFO_oversell (p : ℚ) : ∀ (lots : List Lot) (q : ℚ),
    availQty lots < q →
    (sellFIFO p q lots).oversold = true
      ∧ (sellFIFO p q lots).gain = openGain p lots := by
  intro lots
  induction lots with
  | nil =>
    intro q hq
    simp only [availQty] at hq
    simp [sellFIFO, openGain, hq]
  | cons b bs ih =>
    intro q hq
    have hbs := lotAvail_nonneg bs
    have hq0 : ¬ q ≤ 0 := by
      have := lotAvail_nonneg (b :: bs)
      intro h; linarith
    by_cases hb : 0 < b.remaining
    · simp only [availQty, if_pos hb] at hq
      have hlt : b.remaining < q := by linarith
      have hmin : min q b.remaining = b.remaining := min_eq_right hlt.le
      simp only [sellFIFO, if_neg hq0, if_pos hb, hmin]
      obtain ⟨h1, h2⟩ := ih (q - b.remaining) (by linarith)
      refine ⟨h1, ?_⟩
      rw [h2]
      simp only [openGain, if_pos hb]
    · simp only [availQty, if_neg hb, zero_add] at hq
      simp only [sellFIFO, if_neg hq0, if_neg hb]
      obtain ⟨h1, h2⟩ := ih q hq
      refine ⟨h1, ?_⟩
      rw [h2]
      simp only [openGain, if_neg hb, zero_add]

theorem sellFIFO_gain_recs (p : ℚ) : ∀ (lots : List Lot) (q : ℚ),
    (sellFIFO p q lots).gain
        = (((sellFIFO p q lots).recs).map (fun r => r.gain_amount)).sum
      ∧ ∀ r ∈ (sellFIFO p q lots).recs,
        r.gain_amount = r.matched_quantity * (p - r.buy_price) := by
  intro lots
  induction lots with
  | nil => intro q; simp [sellFIFO]
  | cons b bs ih =>
    intro q
    by_cases hq : q ≤ 0
    · simp [sellFIFO, hq]
    · by_cases hb : 0 < b.remaining
      · obtain ⟨h1, h2⟩ := ih (q - min q b.remaining)
        simp only [sellFIFO, if_neg hq, if_pos hb, List.map_cons, List.sum_cons,
          List.mem_cons]
        refine ⟨by rw [h1], ?_⟩
        rintro r (rfl | hr)
        · rfl
        · exact h2 r hr
      · obtain ⟨h1, h2⟩ := ih q
        simp only [sellFIFO, if_neg hq, if_neg hb]
        exact ⟨h1, h2⟩

end AE

namespace SpecM

theorem sellRounds_neg (p q : ℚ) (lots : List AE.Lot) (hq : q ≤ 0) :
    sellRounds p q lots = ⟨0, lots, false, []⟩ := by
  rw [sellRounds.eq_def, if_pos hq]

theorem sellRounds_none (p q : ℚ) (lots : List AE.Lot) (hq : ¬ q ≤ 0)
    (hm : minIdOpen lots = none) : sellRounds p q lots = ⟨0, lots, true, []⟩ := by
  rw [sellRounds.eq_def, if_neg hq]
  split
  · rfl
  · rename_i i b h
    rw [hm] at h
    cases h

theorem sellRounds_some (p q : ℚ) (lots : List AE.Lot) (i : ℕ) (b : AE.Lot)
    (hq : ¬ q ≤ 0) (hm : minIdOpen lots = some (i, b)) :
    sellRounds p q lots =
      (if q ≤ b.remaining then
        ⟨(min q b.remaining) * (p - b.price),
          lots.set i { b with remaining := b.remaining - min q b.remaining },
          false,
          [⟨b.id, b.price, min q b.remaining, (min q b.remaining) * (p - b.price)⟩]⟩
      else
        ⟨(min q b.remaining) * (p - b.price)
            + (sellRounds p (q - min q b.remaining)
                (lots.set i { b with remaining := b.remaining - min q b.remaining })).gain,
          (sellRounds p (q - min q b.remaining)
            (lots.set i { b with remaining := b.remaining - min q b.remaining })).lots,
          (sellRounds p (q - min q b.remaining)
            (lots.set i { b with remaining := b.remaining - min q b.remaining })).oversold,
          ⟨b.id, b.price, min q b.remaining, (min q b.remaining) * (p - b.price)⟩
            :: (sellRounds p (q - min q b.remaining)
              (lots.set i { b with remaining := b.remaining - min q b.remaining })).recs⟩) := by
  rw [sellRounds.eq_def, if_neg hq]
  split
  · rename_i h; rw [hm] at h; cases h
  · rename_i i' b' h
    rw [hm] at h
    injection h with h1
    injection h1 with h2 h3
    subst h2
    subst h3
    rfl

theorem openCount_zero_none : ∀ (lots : List AE.Lot),
    openCount lots = 0 → minIdOpen lots = none := by
  intro lots
  induction lots with
  | nil => intro _; rfl
  | cons b bs ih =>
    intro h
    simp only [openCount] at h
    by_cases hb : 0 < b.remaining
    · rw [if_pos hb] at h; omega
    · rw [if_neg hb] at h
      simp only [zero_add] at h
      rw [minIdOpen, ih h, if_neg hb]

theorem minIdOpen_cons_closed (b : AE.Lot) (bs : List AE.Lot)
    (hb : ¬ 0 < b.remaining) :
    minIdOpen (b :: bs) = (minIdOpen bs).map (fun jc => (jc.1 + 1, jc.2)) := by
  cases hm : minIdOpen bs with
  | none => simp [minIdOpen, hm, hb]
  | some jc =>
    obtain ⟨j, c⟩ := jc
    simp [minIdOpen, hm, hb]

theorem minIdOpen_mem {lots : List AE.Lot} {i : ℕ} {c : AE.Lot}
    (h : minIdOpen lots = some (i, c)) : c ∈ lots := by
  obtain ⟨hg, _⟩ := minIdOpen_get lots i c h
  exact List.getElem?_mem hg

theorem minIdOpen_cons_open (b : AE.Lot) (bs : List AE.Lot)
    (hs : AE.SortedIds (b :: bs)) (hb : 0 < b.remaining) :
    minIdOpen (b :: bs) = some (0, b) := by
  cases hm : minIdOpen bs with
  | none => simp [minIdOpen, hm, hb]
  | some jc =>
    obtain ⟨j, c⟩ := jc
    have hcmem : c ∈ bs := minIdOpen_mem hm
    have hlt : b.id < c.id := (List.pairwise_cons.mp hs).1 c hcmem
    simp [minIdOpen, hm, hb, hlt.le]

end SpecM

namespace SpecM

theorem sellRounds_cons_closed (p : ℚ) (b : AE.Lot) (hb : ¬ 0 < b.remaining) :
    ∀ (n : ℕ) (bs : List AE.Lot), openCount bs ≤ n → ∀ q,
    sellRounds p q (b :: bs) =
      ⟨(sellRounds p q bs).gain, b :: (sellRounds p q bs).lots,
       (sellRounds p q bs).oversold, (sellRounds p q bs).recs⟩ := by
  intro n
  induction n with
  | zero =>
    intro bs hbs q
    have hnone : minIdOpen bs = none := openCount_zero_none bs (Nat.le_zero.mp hbs)
    have hnone2 : minIdOpen (b :: bs) = none := by
      rw [minIdOpen_cons_closed b bs hb, hnone]
      rfl
    by_cases hq : q ≤ 0
    · rw [sellRounds_neg p q _ hq, sellRounds_neg p q _ hq]
    · rw [sellRounds_none p q _ hq hnone2, sellRounds_none p q _ hq hnone]
  | succ n ih =>
    intro bs hbs q
    by_cases hq : q ≤ 0
    · rw [sellRounds_neg p q _ hq, sellRounds_neg p q _ hq]
    · cases hm : minIdOpen bs with
      | none =>
        have hnone2 : minIdOpen (b :: bs) = none := by
          rw [minIdOpen_cons_closed b bs hb, hm]
          rfl
        rw [sellRounds_none p q _ hq hnone2, sellRounds_none p q _ hq hm]
      | some jc =>
        obtain ⟨j, c⟩ := jc
        have hm2 : minIdOpen (b :: bs) = some (j + 1, c) := by
          rw [minIdOpen_cons_closed b bs hb, hm]
          rfl
        rw [sellRounds_some p q _ _ _ hq hm2, sellRounds_some p q _ _ _ hq hm]
        simp only [List.set_cons_succ]
        by_cases hqc : q ≤ c.remaining
        · rw [if_pos hqc, if_pos hqc]
        · rw [if_neg hqc, if_neg hqc]
          obtain ⟨hg, hcopen⟩ := minIdOpen_get bs j c hm
          have hdec : openCount (bs.set j
              { c with remaining := c.remaining - min q c.remaining })
              < openCount bs := by
            refine openCount_set_lt bs j c _ hg hcopen ?_
            have hmin : min q c.remaining = c.remaining :=
              min_eq_right (lt_of_not_le hqc).le
            simp [hmin]
          rw [ih (bs.set j { c with remaining := c.remaining - min q c.remaining })
              (by omega) (q - min q c.remaining)]

end SpecM

namespace SpecM

theorem sellFIFO_nonpos (p q : ℚ) (hq : q ≤ 0) : ∀ (lots : List AE.Lot),
    AE.sellFIFO p q lots = ⟨0, lots, false, []⟩ := by
  intro lots
  cases lots with
  | nil =>
    simp only [AE.sellFIFO]
    rw [decide_eq_false (not_lt.mpr hq)]
  | cons b bs => simp [AE.sellFIFO, hq]

theorem sellFIFO_eq_rounds (p : ℚ) : ∀ (lots : List AE.Lot),
    AE.SortedIds lots → ∀ q, AE.sellFIFO p q lots = sellRounds p q lots := by
  intro lots
  induction lots with
  | nil =>
    intro _ q
    by_cases hq : q ≤ 0
    · rw [sellRounds_neg p q _ hq, sellFIFO_nonpos p q hq]
    · rw [sellRounds_none p q [] hq rfl]
      simp only [AE.sellFIFO]
      rw [decide_eq_true (lt_of_not_le hq)]
  | cons b bs ih =>
    intro hs q
    have hs' : AE.SortedIds bs := (List.pairwise_cons.mp hs).2
    by_cases hq : q ≤ 0
    · rw [sellRounds_neg p q _ hq, sellFIFO_nonpos p q hq]
    · by_cases hb : 0 < b.remaining
      · have hm : minIdOpen (b :: bs) = some (0, b) := minIdOpen_cons_open b bs hs hb
        rw [sellRounds_some p q _ _ _ hq hm]
        simp only [List.set_cons_zero]
        by_cases hqb : q ≤ b.remaining
        · rw [if_pos hqb]
          have hmin : min q b.remaining = q := min_eq_left hqb
          have hz : AE.sellFIFO p (q - min q b.remaining) bs = ⟨0, bs, false, []⟩ := by
            rw [hmin, sub_self]
            exact sellFIFO_nonpos p 0 le_rfl bs
          simp [AE.sellFIFO, if_neg hq, if_pos hb, hz]
        · rw [if_neg hqb]
          have hmin : min q b.remaining = b.remaining :=
            min_eq_right (lt_of_not_le hqb).le
          have hb' : ¬ 0 < ({ b with remaining := b.remaining - min q b.remaining }
              : AE.Lot).remaining := by
            simp [hmin]
          rw [sellRounds_cons_closed p _ hb' (openCount bs) bs le_rfl
              (q - min q b.remaining)]
          rw [← ih hs' (q - min q b.remaining)]
          simp [AE.sellFIFO, if_neg hq, if_pos hb]
      · rw [sellRounds_cons_closed p b hb (openCount bs) bs le_rfl q]
        rw [← ih hs' q]
        simp [AE.sellFIFO, if_neg hq, if_neg hb]

end SpecM

namespace AE

theorem sellFIFO_ids (p : ℚ) : ∀ (lots : List Lot) (q : ℚ),
    ((sellFIFO p q lots).lots).map (fun b => b.id) = lots.map (fun b => b.id) := by
  intro lots
  induction lots with
  | nil => intro q; simp [sellFIFO]
  | cons b bs ih =>
    intro q
    by_cases hq : q ≤ 0
    · simp [sellFIFO, hq]
    · by_cases hb : 0 < b.remaining
      · simp [sellFIFO, hq, hb, ih]
      · simp [sellFIFO, hq, hb, ih]

end AE

namespace SpecM

theorem sortedIds_of_ids_eq {l1 l2 : List AE.Lot}
    (h : l1.map (fun b => b.id) = l2.map (fun b => b.id))
    (hs : AE.SortedIds l1) : AE.SortedIds l2 := by
  unfold AE.SortedIds at hs ⊢
  have h1 : (l1.map (fun b => b.id)).Pairwise (fun x y => x < y) :=
    List.pairwise_map.mpr hs
  rw [h] at h1
  exact List.pairwise_map.mp h1

theorem mem_id_of_ids_eq {l1 l2 : List AE.Lot}
    (h : l1.map (fun b => b.id) = l2.map (fun b => b.id)) :
    ∀ b ∈ l1, ∃ c ∈ l2, c.id = b.id := by
  intro b hb
  have hmem : b.id ∈ l2.map (fun b => b.id) := by
    rw [← h]
    exact List.mem_map_of_mem _ hb
  obtain ⟨c, hc, hcid⟩ := List.mem_map.mp hmem
  exact ⟨c, hc, hcid⟩

theorem runTxns_eq_spec : ∀ (txs : List AE.Txn) (pf : AE.Portfolio),
    (∀ a, AE.SortedIds (pf a)) →
    (∀ a b, b ∈ pf a → ∀ t ∈ txs, b.id < t.transaction_id) →
    AE.IdsIncreasing txs →
    AE.runTxns pf txs = runTxns pf txs := by
  intro txs
  induction txs with
  | nil => intro pf _ _ _; rfl
  | cons t ts ih =>
    intro pf hsorted hfuture hinc
    obtain ⟨hhead, htail⟩ := List.pairwise_cons.mp hinc
    have hstep : applyTxn pf t = AE.applyTxn pf t := by
      cases htt : t.ttype with
      | BUY => simp only [AE.applyTxn, applyTxn, htt]
      | SELL =>
        simp only [AE.applyTxn, applyTxn, htt,
          sellFIFO_eq_rounds t.unit_price (pf t.asset) (hsorted t.asset) t.quantity]
    rw [AE.runTxns, runTxns, hstep]
    congr 1
    apply ih
    · intro a
      cases htt : t.ttype with
      | BUY =>
        simp only [AE.applyTxn, htt]
        by_cases ha : a = t.asset
        · rw [if_pos ha]
          unfold AE.SortedIds
          rw [List.pairwise_append]
          refine ⟨hsorted t.asset, List.pairwise_singleton _ _, ?_⟩
          intro b hb c hc
          simp only [List.mem_singleton] at hc
          subst hc
          exact hfuture t.asset b hb t (List.mem_cons_self t ts)
        · rw [if_neg ha]
          exact hsorted a
      | SELL =>
        simp only [AE.applyTxn, htt]
        by_cases ha : a = t.asset
        · rw [if_pos ha]
          exact sortedIds_of_ids_eq
            (AE.sellFIFO_ids t.unit_price (pf t.asset) t.quantity).symm
            (hsorted t.asset)
        · rw [if_neg ha]
          exact hsorted a
    · intro a b hb t' ht'
      cases htt : t.ttype with
      | BUY =>
        simp only [AE.applyTxn, htt] at hb
        by_cases ha : a = t.asset
        · rw [if_pos ha] at hb
          rcases List.mem_append.mp hb with hold | hnew
          · exact hfuture t.asset b hold t' (List.mem_cons_of_mem t ht')
          · simp only [List.mem_singleton] at hnew
            subst hnew
            exact hhead t' ht'
        · rw [if_neg ha] at hb
          exact hfuture a b hb t' (List.mem_cons_of_mem t ht')
      | SELL =>
        simp only [AE.applyTxn, htt] at hb
        by_cases ha : a = t.asset
        · rw [if_pos ha] at hb
          obtain ⟨c, hc, hcid⟩ := mem_id_of_ids_eq
            (AE.sellFIFO_ids t.unit_price (pf t.asset) t.quantity) b hb
          rw [← hcid]
          exact hfuture t.asset c hc t' (List.mem_cons_of_mem t ht')
        · rw [if_neg ha] at hb
          exact hfuture a b hb t' (List.mem_cons_of_mem t ht')
    · exact htail

end SpecM

namespace AE

/-- The tax_computations row written by async `process_taxpayer`
(analysis_engine.py lines 244-258). -/
structure TaxComputation where
  federal_gross_income : ℚ
  federal_taxable_income : ℚ
  federal_deduction_type : DedType
  federal_surcharge : ℚ
  total_federal_tax : ℤ
  state_surcharge : ℚ
  total_state_tax : ℤ

/-- async_event_loop/analysis_engine.py lines 222-258 `process_taxpayer`:
capital gains from the transaction history, federal tax, the deduction
amount recovered as gross - taxable, state tax, and the two liabilities
rounded by round_dollar at the output boundary.  The ewma_income argument
was computed at ingestion time by `calculate_ewma`. -/
def process_taxpayer (state : String) (w2_income ewma_income : ℚ)
    (num_children : ℕ) (donations : List ℚ) (txs : List Txn) : TaxComputation :=
  let net_capital_gain := process_capital_gains txs
  let fed_res := calculate_federal_tax w2_income net_capital_gain ewma_income
      num_children donations
  let deduction_amt := fed_res.gross - fed_res.taxable
  let st := calculate_state_tax state w2_income net_capital_gain
      fed_res.surcharge fed_res.taxable deduction_amt
  { federal_gross_income := fed_res.gross
  , federal_taxable_income := fed_res.taxable
  , federal_deduction_type := fed_res.deduction_type
  , federal_surcharge := fed_res.surcharge
  , total_federal_tax := round_dollar fed_res.total
  , state_surcharge := st.2
  , total_state_tax := round_dollar st.1 }

end AE

namespace ST

/-- Raw rows of a household as the single_thread passes read them. -/
structure Household where
  state : String
  w2_income : ℚ
  num_children : ℕ
  history : List (ℤ × ℚ)
  purchases : List Purchase
  sales : List Sale
  donations : List ℚ

/-- Pass 1 output (net_capital_gain of capital_gains_result) for one
household. -/
def pipelineGain (h : Household) : ℚ :=
  calculate_capital_gains h.purchases h.sales

/-- Pass 1 output (ewma_income of federal_calculations). -/
def pipelineEwma (h : Household) : ℚ := calculate_ewma h.history

/-- Pass 2 output (the federal_calculations row). -/
def pipelineFed (h : Household) : FedResult :=
  calculate_federal_tax h.w2_income (pipelineGain h) (pipelineEwma h)
    h.num_children h.donations

/-- Pass 3 state tax: the single_thread state pass reads w2, net gain,
surcharge_amount, taxable_income, itemized_deduction_val,
standard_deduction_val (stored as 10000) and deduction_method from the
earlier passes. -/
def pipelineStateTax (h : Household) : ℚ :=
  let f := pipelineFed h
  calculate_state_tax h.state h.w2_income (pipelineGain h) f.surcharge
    f.taxable_income f.itemized_total 10000 f.deduction_method

/-- single_thread/analysis.py lines 341-348: the final_liability row,
rounded with Python round. -/
def final_liability (h : Household) : ℤ × ℤ :=
  (pythonRound (pipelineFed h).final_federal_tax,
   pythonRound (pipelineStateTax h))

end ST

namespace SS

/-- shared_state/analysis.py lines 172-177: the final_liability row of the
threaded variant, also via Python round on the full-precision totals. -/
def final_liability (final_federal_tax final_state_tax : ℚ) : ℤ × ℤ :=
  (ST.pythonRound final_federal_tax, ST.pythonRound final_state_tax)

end SS

namespace ST

theorem bracketTaxFed_eq_marginal (x : ℚ) :
    bracketTaxFed x = SpecM.fedMarginal x := by
  simp only [bracketTaxFed, SpecM.fedMarginal]
  rcases le_or_lt x 100000 with h1 | h1
  · have e1 : min x 100000 = x := min_eq_left h1
    have e2 : min x 200000 = x := min_eq_left (by linarith)
    have e3 : min x 300000 = x := min_eq_left (by linarith)
    rw [e1, e2, e3]
    simp only [sub_self, lt_self_iff_false, if_false]
    ring
  · have e1 : min x 100000 = (100000 : ℚ) := min_eq_right h1.le
    rw [e1]
    have hr1 : (0:ℚ) < x - 100000 := by linarith
    rw [if_pos hr1, if_pos hr1]
    rcases le_or_lt x 200000 with h2 | h2
    · have e2 : min x 200000 = x := min_eq_left h2
      have e4 : min (x - 100000) 100000 = x - 100000 := min_eq_left (by linarith)
      have e3 : min x 300000 = x := min_eq_left (by linarith)
      rw [e2, e3, e4]
      simp only [sub_self, lt_self_iff_false, if_false]
      ring
    · have e2 : min x 200000 = (200000 : ℚ) := min_eq_right h2.le
      have e4 : min (x - 100000) 100000 = (100000 : ℚ) := min_eq_right (by linarith)
      rw [e2, e4]
      have hr2 : (0:ℚ) < x - 100000 - 100000 := by linarith
      rw [if_pos hr2, if_pos hr2]
      rcases le_or_lt x 300000 with h3 | h3
      · have e3 : min x 300000 = x := min_eq_left h3
        have e5 : min (x - 100000 - 100000) 100000 = x - 100000 - 100000 :=
          min_eq_left (by linarith)
        rw [e3, e5]
        simp only [sub_self, lt_self_iff_false, if_false]
        ring
      · have e3 : min x 300000 = (300000 : ℚ) := min_eq_right h3.le
        have e5 : min (x - 100000 - 100000) 100000 = (100000 : ℚ) :=
          min_eq_right (by linarith)
        rw [e3, e5]
        have hr3 : (0:ℚ) < x - 100000 - 100000 - 100000 := by linarith
        rw [if_pos hr3]
        ring

theorem bracketTaxTexas_eq_marginal (x : ℚ) :
    bracketTaxTexas x = SpecM.txMarginal x := by
  simp only [bracketTaxTexas, SpecM.txMarginal]
  rcases le_or_lt x 90000 with h1 | h1
  · have e1 : min x 90000 = x := min_eq_left h1
    have e2 : min x 200000 = x := min_eq_left (by linarith)
    rw [e1, e2]
    simp only [sub_self, lt_self_iff_false, if_false]
    ring
  · have e1 : min x 90000 = (90000 : ℚ) := min_eq_right h1.le
    rw [e1]
    have hr1 : (0:ℚ) < x - 90000 := by linarith
    rw [if_pos hr1, if_pos hr1]
    rcases le_or_lt x 200000 with h2 | h2
    · have e2 : min x 200000 = x := min_eq_left h2
      have e4 : min (x - 90000) 110000 = x - 90000 := min_eq_left (by linarith)
      rw [e2, e4]
      simp only [sub_self, lt_self_iff_false, if_false]
      ring
    · have e2 : min x 200000 = (200000 : ℚ) := min_eq_right h2.le
      have e4 : min (x - 90000) 110000 = (110000 : ℚ) := min_eq_right (by linarith)
      rw [e2, e4]
      have hr2 : (0:ℚ) < x - 90000 - 110000 := by linarith
      rw [if_pos hr2]
      ring

end ST

namespace AE

theorem calculate_bracket_tax_fed (x : ℚ) (hx : 0 ≤ x) :
    calculate_bracket_tax x fedBrackets = SpecM.fedMarginal x := by
  simp only [calculate_bracket_tax, fedBrackets, bracketLoop, SpecM.fedMarginal]
  rcases eq_or_lt_of_le hx with h0 | h0
  · rw [if_neg (by linarith)]
    rw [min_eq_left (by linarith), min_eq_left (by linarith),
      min_eq_left (by linarith)]
    linarith
  · rw [if_pos h0]
    rcases le_or_lt x 100000 with h1 | h1
    · rw [if_neg (by linarith)]
      rw [min_eq_left h1, min_eq_left (by linarith), min_eq_left (by linarith)]
      ring
    · rw [if_pos h1, min_eq_right h1.le]
      rcases le_or_lt x 200000 with h2 | h2
      · rw [if_neg (by linarith)]
        rw [min_eq_left h2, min_eq_left (by linarith)]
        ring
      · rw [if_pos h2, min_eq_right h2.le]
        rcases le_or_lt x 300000 with h3 | h3
        · rw [if_neg (by linarith)]
          rw [min_eq_left h3]
          ring
        · rw [if_pos h3, min_eq_right h3.le]
          ring

theorem calculate_bracket_tax_tx (x : ℚ) (hx : 0 ≤ x) :
    calculate_bracket_tax x txBrackets = SpecM.txMarginal x := by
  simp only [calculate_bracket_tax, txBrackets, bracketLoop, SpecM.txMarginal]
  rcases eq_or_lt_of_le hx with h0 | h0
  · rw [if_neg (by linarith)]
    rw [min_eq_left (by linarith), min_eq_left (by linarith)]
    linarith
  · rw [if_pos h0]
    rcases le_or_lt x 90000 with h1 | h1
    · rw [if_neg (by linarith)]
      rw [min_eq_left h1, min_eq_left (by linarith)]
      ring
    · rw [if_pos h1, min_eq_right h1.le]
      rcases le_or_lt x 200000 with h2 | h2
      · rw [if_neg (by linarith)]
        rw [min_eq_left h2]
        ring
      · rw [if_pos h2, min_eq_right h2.le]
        ring

end AE

namespace SpecM

/-- Modelled from the spec (section 4.3 steps 3-5): child_rate =
min(num_children x 0.01, 0.10); child_base = max(0, gross - charitable);
itemized = charitable + child_base x child_rate. -/
def itemizedTotal (gross charitable : ℚ) (children : ℕ) : ℚ :=
  charitable + max 0 (gross - charitable) * min ((children : ℚ) * (1/100)) (10/100)

end SpecM

namespace ST

theorem itemized_eq_spec (w2 gain ewma : ℚ) (children : ℕ) (donations : List ℚ) :
    (calculate_federal_tax w2 gain ewma children donations).itemized_total
      = SpecM.itemizedTotal (w2 + gain) donations.sum children := by
  simp only [calculate_federal_tax, SpecM.itemizedTotal]
  have hrate : (min (children : ℚ) 10) * (1/100)
      = min ((children : ℚ) * (1/100)) (10/100) := by
    rw [min_mul_of_nonneg _ _ (by norm_num : (0:ℚ) ≤ 1/100)]
    norm_num
  by_cases hb : 0 < w2 + gain - donations.sum
  · rw [if_pos hb, max_eq_right hb.le, hrate]
    ring
  · rw [if_neg hb, max_eq_left (not_lt.mp hb)]
    ring

end ST

namespace AE

theorem itemizedAE_eq_spec (w2 gain ewma : ℚ) (children : ℕ) (donations : List ℚ) :
    donations.sum + max 0 (w2 + gain - donations.sum)
        * min ((children : ℚ) * (1/100)) (10/100)
      = SpecM.itemizedTotal (w2 + gain) donations.sum children := rfl

end AE

/-- C5 (confirmed): both income smoothers implement the 5-step EWMA
recurrence E1 = Y[-5], Ek = 0.6 Y + 0.4 E(k-1), with the single_thread
variant defaulting missing offsets to 0, and the example history
[10000, 20000, 15000, 25000, 30000] smooths to exactly 26464. -/
theorem claim_C5 :
    (∀ y1 y2 y3 y4 y5 : ℚ,
      ST.calculate_ewma [(-5, y1), (-4, y2), (-3, y3), (-2, y4), (-1, y5)]
          = SpecM.ewma5 y1 y2 y3 y4 y5
        ∧ AE.calculate_ewma [y1, y2, y3, y4, y5] = SpecM.ewma5 y1 y2 y3 y4 y5)
    ∧ ST.calculate_ewma [] = SpecM.ewma5 0 0 0 0 0
    ∧ SpecM.ewma5 10000 20000 15000 25000 30000 = 26464 := by
  refine ⟨fun y1 y2 y3 y4 y5 => ⟨rfl, rfl⟩, ?_, ?_⟩
  · norm_num [ST.calculate_ewma, ST.lookupAmount, SpecM.ewma5]
  · norm_num [SpecM.ewma5]

/-- C6 (confirmed): for every nonnegative taxable income both federal
bracket computations equal the marginal formula over [0,100000) at 5
percent, [100000,200000) at 10, [200000,300000) at 15 and [300000,inf) at
20; in particular 250000 yields exactly 22500. -/
theorem claim_C6 :
    (∀ x : ℚ, 0 ≤ x →
      ST.bracketTaxFed x = SpecM.fedMarginal x
        ∧ AE.calculate_bracket_tax x AE.fedBrackets = SpecM.fedMarginal x)
    ∧ SpecM.fedMarginal 250000 = 22500
    ∧ ST.bracketTaxFed 250000 = 22500
    ∧ AE.calculate_bracket_tax 250000 AE.fedBrackets = 22500 := by
  have hm : SpecM.fedMarginal 250000 = 22500 := by norm_num [SpecM.fedMarginal]
  refine ⟨fun x hx => ⟨ST.bracketTaxFed_eq_marginal x,
    AE.calculate_bracket_tax_fed x hx⟩, hm, ?_, ?_⟩
  · rw [ST.bracketTaxFed_eq_marginal 250000, hm]
  · rw [AE.calculate_bracket_tax_fed 250000 (by norm_num), hm]

/-- Witness for C6 at taxable income 250000. -/
theorem claim_C6_witness :
    (0:ℚ) ≤ 250000
      ∧ (ST.bracketTaxFed 250000 = SpecM.fedMarginal 250000
        ∧ AE.calculate_bracket_tax 250000 AE.fedBrackets
            = SpecM.fedMarginal 250000) :=
  ⟨by norm_num, claim_C6.1 250000 (by norm_num)⟩

/-- C8 (confirmed): both federal resolvers select ITEMIZED exactly when
itemized = charitable + child_deduction strictly exceeds 10000 and
otherwise use the 10000 standard deduction; a tie at exactly 10000 selects
STANDARD. -/
theorem claim_C8 : ∀ (w2 gain ewma : ℚ) (children : ℕ) (donations : List ℚ),
    ((ST.calculate_federal_tax w2 gain ewma children donations).deduction_method
        = ST.DedMethod.Itemized
      ↔ 10000 < SpecM.itemizedTotal (w2 + gain) donations.sum children)
    ∧ (ST.calculate_federal_tax w2 gain ewma children donations).deduction_val
        = (if 10000 < SpecM.itemizedTotal (w2 + gain) donations.sum children
            then SpecM.itemizedTotal (w2 + gain) donations.sum children else 10000)
    ∧ ((AE.calculate_federal_tax w2 gain ewma children donations).deduction_type
        = AE.DedType.ITEMIZED
      ↔ 10000 < SpecM.itemizedTotal (w2 + gain) donations.sum children)
    ∧ (AE.calculate_federal_tax w2 gain ewma children donations).deduction_amount
        = (if 10000 < SpecM.itemizedTotal (w2 + gain) donations.sum children
            then SpecM.itemizedTotal (w2 + gain) donations.sum children else 10000)
    ∧ (SpecM.itemizedTotal (w2 + gain) donations.sum children = 10000 →
        (ST.calculate_federal_tax w2 gain ewma children donations).deduction_method
            = ST.DedMethod.Standard
          ∧ (AE.calculate_federal_tax w2 gain ewma children donations).deduction_type
            = AE.DedType.STANDARD) := by
  intro w2 gain ewma children donations
  have hit := ST.itemized_eq_spec w2 gain ewma children donations
  have hitA := AE.itemizedAE_eq_spec w2 gain ewma children donations
  simp only [ST.calculate_federal_tax] at hit
  simp only [ST.calculate_federal_tax, AE.calculate_federal_tax, hit, hitA]
  by_cases h : 10000 < SpecM.itemizedTotal (w2 + gain) donations.sum children
  · simp only [if_pos h]
    refine ⟨by simp [h], by trivial, by simp [h], by trivial, ?_⟩
    intro he
    rw [he] at h
    exact absurd h (by norm_num)
  · simp only [if_neg h]
    exact ⟨by simp [h], by trivial, by simp [h], by trivial,
      fun _ => ⟨by trivial, by trivial⟩⟩

/-- Witness for C8 at a household whose itemized total is exactly 10000
(donations sum 10000, no children): the tie selects STANDARD in both
variants. -/
theorem claim_C8_witness :
    SpecM.itemizedTotal (20000 + 0) ([(10000 : ℚ)]).sum 0 = 10000
      ∧ (ST.calculate_federal_tax 20000 0 0 0 [(10000 : ℚ)]).deduction_method
          = ST.DedMethod.Standard
      ∧ (AE.calculate_federal_tax 20000 0 0 0 [(10000 : ℚ)]).deduction_type
          = AE.DedType.STANDARD :=
  ⟨by norm_num [SpecM.itemizedTotal],
    (claim_C8 20000 0 0 0 [(10000 : ℚ)]).2.2.2.2
      (by norm_num [SpecM.itemizedTotal])⟩

/-- C9 (confirmed): in both federal resolvers the surcharge is 2 percent of
gross income exactly when the smoothed income strictly exceeds 1000000 and
0 otherwise (so exactly 1000000 yields none), and the total federal tax is
the marginal bracket tax on taxable income plus the surcharge, the
surcharge itself never being bracketed. -/
theorem claim_C9 : ∀ (w2 gain ewma : ℚ) (children : ℕ) (donations : List ℚ),
    (ewma ≤ 1000000 →
      (ST.calculate_federal_tax w2 gain ewma children donations).surcharge = 0
        ∧ (AE.calculate_federal_tax w2 gain ewma children donations).surcharge = 0)
    ∧ (1000000 < ewma →
      (ST.calculate_federal_tax w2 gain ewma children donations).surcharge
          = (2/100) * (w2 + gain)
        ∧ (AE.calculate_federal_tax w2 gain ewma children donations).surcharge
          = (w2 + gain) * (2/100))
    ∧ (ST.calculate_federal_tax w2 gain ewma children donations).final_federal_tax
        = SpecM.fedMarginal
            (ST.calculate_federal_tax w2 gain ewma children donations).taxable_income
          + (ST.calculate_federal_tax w2 gain ewma children donations).surcharge
    ∧ (AE.calculate_federal_tax w2 gain ewma children donations).total
        = SpecM.fedMarginal
            (AE.calculate_federal_tax w2 gain ewma children donations).taxable
          + (AE.calculate_federal_tax w2 gain ewma children donations).surcharge := by
  intro w2 gain ewma children donations
  refine ⟨?_, ?_, ?_, ?_⟩
  · intro h
    simp only [ST.calculate_federal_tax, AE.calculate_federal_tax]
    rw [if_neg (not_lt.mpr h), if_neg (not_lt.mpr h)]
    exact ⟨rfl, rfl⟩
  · intro h
    simp only [ST.calculate_federal_tax, AE.calculate_federal_tax]
    rw [if_pos h, if_pos h]
    exact ⟨rfl, rfl⟩
  · simp only [ST.calculate_federal_tax]
    rw [ST.bracketTaxFed_eq_marginal]
  · simp only [AE.calculate_federal_tax]
    rw [AE.calculate_bracket_tax_fed _ (le_max_left 0 _)]

/-- Witness for C9: smoothed income exactly 1000000 yields no surcharge in
either variant. -/
theorem claim_C9_witness :
    (1000000 : ℚ) ≤ 1000000
      ∧ (ST.calculate_federal_tax 50000 0 1000000 0 []).surcharge = 0
      ∧ (AE.calculate_federal_tax 50000 0 1000000 0 []).surcharge = 0 :=
  ⟨le_rfl, (claim_C9 50000 0 1000000 0 []).1 le_rfl⟩

namespace ST

theorem texas_state_eq (w2 gain sur taxable item std : ℚ) (m : DedMethod) :
    calculate_state_tax ("Texas") w2 gain sur taxable item std m
      = (if 15000 < (if m = DedMethod.Itemized then item else std)
          then (99/100 : ℚ) else 1) * SpecM.txMarginal taxable := by
  have hs1 : ¬ ("Texas" : String) = "California" := by decide
  simp only [calculate_state_tax, if_neg hs1, if_pos rfl]
  rw [bracketTaxTexas_eq_marginal]
  by_cases hd : 15000 < (if m = DedMethod.Itemized then item else std)
  · rw [if_pos hd, if_pos hd]
    simp [mul_comm]
  · rw [if_neg hd, if_neg hd]
    simp

theorem dedUsed_eq (w2 gain ewma : ℚ) (children : ℕ) (donations : List ℚ) :
    (if (calculate_federal_tax w2 gain ewma children donations).deduction_method
        = DedMethod.Itemized
      then (calculate_federal_tax w2 gain ewma children donations).itemized_total
      else 10000)
      = (calculate_federal_tax w2 gain ewma children donations).deduction_val := by
  simp only [calculate_federal_tax]
  split_ifs <;> simp_all

end ST

namespace AE

theorem tx_recover (w2 gain sur gross ded : ℚ) :
    (calculate_state_tax ("Texas") w2 gain sur (max 0 (gross - ded))
        (gross - max 0 (gross - ded))).1
      = (if 15000 < ded then (99/100 : ℚ) else 1)
          * SpecM.txMarginal (max 0 (gross - ded)) := by
  have hs1 : ¬ ("Texas" : String) = "California" := by decide
  simp only [calculate_state_tax, if_neg hs1, if_pos rfl]
  rcases le_or_lt 0 (gross - ded) with hgd | hgd
  · rw [max_eq_right hgd]
    have he : gross - (gross - ded) = ded := by ring
    rw [he, calculate_bracket_tax_tx _ hgd]
    by_cases hd : 15000 < ded
    · simp only [if_pos hd]
      simp [mul_comm]
    · simp only [if_neg hd]
      simp
  · rw [max_eq_left hgd.le]
    rw [calculate_bracket_tax_tx 0 le_rfl]
    have hz : SpecM.txMarginal 0 = 0 := by norm_num [SpecM.txMarginal]
    rw [hz]
    split_ifs <;> simp

theorem fed_taxable_recover (w2 gain ewma : ℚ) (children : ℕ)
    (donations : List ℚ) :
    (calculate_federal_tax w2 gain ewma children donations).taxable
      = max 0 ((calculate_federal_tax w2 gain ewma children donations).gross
          - (calculate_federal_tax w2 gain ewma children donations).deduction_amount) :=
  rfl

theorem dedUsed_pipeline (h : ST.Household) :
    (if (ST.pipelineFed h).deduction_method = ST.DedMethod.Itemized
      then (ST.pipelineFed h).itemized_total else 10000)
      = (ST.pipelineFed h).deduction_val := by
  unfold ST.pipelineFed
  exact ST.dedUsed_eq h.w2_income (ST.pipelineGain h) (ST.pipelineEwma h)
    h.num_children h.donations

end AE

/-- C7 (confirmed): in both variants, Texas state tax is the marginal
[0,90000) at 3 percent / [90000,200000) at 5 / [200000,inf) at 7 bracket
tax on the federal taxable income, multiplied by 0.99 exactly when the
federal deduction actually used exceeds 15000 and unchanged otherwise; in
the async variant the deduction is recovered as gross - taxable, which
coincides with the selected deduction amount whenever the bracket tax is
nonzero. -/
theorem claim_C7 :
    (∀ (w2 gain sur taxable item std : ℚ) (m : ST.DedMethod),
      ST.calculate_state_tax ("Texas") w2 gain sur taxable item std m
        = (if 15000 < (if m = ST.DedMethod.Itemized then item else std)
            then (99/100 : ℚ) else 1) * SpecM.txMarginal taxable)
    ∧ (∀ h : ST.Household, h.state = "Texas" →
      ST.pipelineStateTax h
        = (if 15000 < (ST.pipelineFed h).deduction_val then (99/100 : ℚ) else 1)
            * SpecM.txMarginal (ST.pipelineFed h).taxable_income)
    ∧ (∀ (w2 gain ewma : ℚ) (children : ℕ) (donations : List ℚ),
      (AE.calculate_state_tax ("Texas") w2 gain
          (AE.calculate_federal_tax w2 gain ewma children donations).surcharge
          (AE.calculate_federal_tax w2 gain ewma children donations).taxable
          ((AE.calculate_federal_tax w2 gain ewma children donations).gross
            - (AE.calculate_federal_tax w2 gain ewma children donations).taxable)).1
        = (if 15000 <
              (AE.calculate_federal_tax w2 gain ewma children donations).deduction_amount
            then (99/100 : ℚ) else 1)
            * SpecM.txMarginal
              (AE.calculate_federal_tax w2 gain ewma children donations).taxable) := by
  refine ⟨fun w2 gain sur taxable item std m =>
      ST.texas_state_eq w2 gain sur taxable item std m, ?_, ?_⟩
  · intro h hs
    unfold ST.pipelineStateTax
    rw [hs, ST.texas_state_eq]
    rw [AE.dedUsed_pipeline]
  · intro w2 gain ewma children donations
    rw [AE.fed_taxable_recover w2 gain ewma children donations]
    exact AE.tx_recover w2 gain
      (AE.calculate_federal_tax w2 gain ewma children donations).surcharge
      (AE.calculate_federal_tax w2 gain ewma children donations).gross
      (AE.calculate_federal_tax w2 gain ewma children donations).deduction_amount

/-- Witness for C7: a Texas household with an itemized deduction of 16000
gets its state bracket tax discounted by 1 percent. -/
theorem claim_C7_witness :
    (⟨"Texas", 200000, 0, [], [], [], [(16000 : ℚ)]⟩ : ST.Household).state = "Texas"
      ∧ ST.pipelineStateTax ⟨"Texas", 200000, 0, [], [], [], [(16000 : ℚ)]⟩
        = (if 15000 <
            (ST.pipelineFed ⟨"Texas", 200000, 0, [], [], [], [(16000 : ℚ)]⟩).deduction_val
            then (99/100 : ℚ) else 1)
            * SpecM.txMarginal
              (ST.pipelineFed ⟨"Texas", 200000, 0, [], [], [], [(16000 : ℚ)]⟩).taxable_income :=
  ⟨rfl, claim_C7.2.1 ⟨"Texas", 200000, 0, [], [], [], [(16000 : ℚ)]⟩ rfl⟩

/-- C10 (confirmed): for California, both state-tax resolvers depend only on
w2_income, the net capital gain, and whether the federal surcharge is
positive: any two input rows agreeing on these three values produce the
same state tax, whatever their taxable income, deduction values, deduction
method or state surcharge magnitudes. -/
theorem claim_C10 : ∀ (w2 gain s1 s2 t1 t2 i1 i2 d1 d2 da1 da2 : ℚ)
    (m1 m2 : ST.DedMethod),
    (0 < s1 ↔ 0 < s2) →
    ST.calculate_state_tax ("California") w2 gain s1 t1 i1 d1 m1
        = ST.calculate_state_tax ("California") w2 gain s2 t2 i2 d2 m2
      ∧ (AE.calculate_state_tax ("California") w2 gain s1 t1 da1).1
        = (AE.calculate_state_tax ("California") w2 gain s2 t2 da2).1 := by
  intro w2 gain s1 s2 t1 t2 i1 i2 d1 d2 da1 da2 m1 m2 hiff
  constructor
  · simp only [ST.calculate_state_tax, if_pos rfl]
    by_cases h1 : 0 < s1
    · rw [if_pos h1, if_pos (hiff.mp h1)]
      simp
    · rw [if_neg h1, if_neg (fun h2 => h1 (hiff.mpr h2))]
      simp
  · simp only [AE.calculate_state_tax, if_pos rfl]
    by_cases h1 : 0 < s1
    · rw [if_pos h1, if_pos (hiff.mp h1)]
      simp
    · rw [if_neg h1, if_neg (fun h2 => h1 (hiff.mpr h2))]
      simp

/-- Witness for C10: two California rows with identical w2 and net gain but
different surcharge magnitudes (both positive), taxable incomes, deduction
values and methods give the same state tax in both variants. -/
theorem claim_C10_witness :
    ((0 : ℚ) < 1 ↔ (0 : ℚ) < 7)
      ∧ (ST.calculate_state_tax ("California") 100000 2000 1 50000 20000 10000
            ST.DedMethod.Itemized
          = ST.calculate_state_tax ("California") 100000 2000 7 90000 0 10000
            ST.DedMethod.Standard
        ∧ (AE.calculate_state_tax ("California") 100000 2000 1 50000 20000).1
          = (AE.calculate_state_tax ("California") 100000 2000 7 90000 0).1) :=
  ⟨by norm_num,
    claim_C10 100000 2000 1 7 50000 90000 20000 0 10000 10000 20000 0
      ST.DedMethod.Itemized ST.DedMethod.Standard (by norm_num)⟩

/-- C3 (corrected): for a state that is neither California nor Texas both
resolvers return a state tax of 0 rather than failing, and the
single_thread pipeline still writes a final_liability row with state tax 0
for such a household. -/
theorem claim_C3_amended :
    (∀ (state : String) (w2 gain sur taxable item std dedAmt : ℚ)
        (m : ST.DedMethod),
      state ≠ "California" → state ≠ "Texas" →
      ST.calculate_state_tax state w2 gain sur taxable item std m = 0
        ∧ AE.calculate_state_tax state w2 gain sur taxable dedAmt = (0, 0))
    ∧ (∀ h : ST.Household, h.state ≠ "California" → h.state ≠ "Texas" →
        ST.final_liability h
          = (ST.pythonRound (ST.pipelineFed h).final_federal_tax, 0)) := by
  constructor
  · intro state w2 gain sur taxable item std dedAmt m h1 h2
    constructor
    · simp only [ST.calculate_state_tax, if_neg h1, if_neg h2]
    · simp only [AE.calculate_state_tax, if_neg h1, if_neg h2]
  · intro h h1 h2
    unfold ST.final_liability ST.pipelineStateTax
    rw [show ST.calculate_state_tax h.state h.w2_income (ST.pipelineGain h)
        (ST.pipelineFed h).surcharge (ST.pipelineFed h).taxable_income
        (ST.pipelineFed h).itemized_total 10000 (ST.pipelineFed h).deduction_method
        = 0 from by simp only [ST.calculate_state_tax, if_neg h1, if_neg h2]]
    have hz : ST.pythonRound 0 = 0 := by
      simp [ST.pythonRound]
    rw [hz]

/-- Witness for C3 at the state value Nevada. -/
theorem claim_C3_witness :
    ("Nevada" ≠ "California" ∧ "Nevada" ≠ "Texas")
      ∧ (ST.calculate_state_tax ("Nevada") 100000 0 0 90000 0 10000
            ST.DedMethod.Standard = 0
        ∧ AE.calculate_state_tax ("Nevada") 100000 0 0 90000 10000 = (0, 0)) :=
  ⟨⟨by decide, by decide⟩,
    claim_C3_amended.1 ("Nevada") 100000 0 0 90000 0 10000 10000
      ST.DedMethod.Standard (by decide) (by decide)⟩

/-- Counterexample for C3: the Nevada household (w2 100000, no children, no
history, no assets, no donations) is not failed: the async resolver returns
state tax 0 and the single_thread pipeline writes a final_liability row
(4500, 0). -/
theorem claim_C3_cex :
    AE.calculate_state_tax ("Nevada") 100000 0 0 90000 10000 = (0, 0)
      ∧ ST.final_liability ⟨"Nevada", 100000, 0, [], [], [], []⟩ = (4500, 0) := by
  constructor
  · simp [AE.calculate_state_tax]
  · have hf : (ST.pipelineFed ⟨"Nevada", 100000, 0, [], [], [], []⟩).final_federal_tax
        = 4500 := by
      norm_num [ST.pipelineFed, ST.pipelineGain, ST.pipelineEwma,
        ST.calculate_capital_gains, ST.initLots, ST.runSales, ST.calculate_ewma,
        ST.lookupAmount, ST.calculate_federal_tax, ST.bracketTaxFed]
    have hst : ST.pipelineStateTax ⟨"Nevada", 100000, 0, [], [], [], []⟩ = 0 := by
      unfold ST.pipelineStateTax
      simp only [ST.calculate_state_tax,
        if_neg (by decide : ¬ ("Nevada" : String) = "California"),
        if_neg (by decide : ¬ ("Nevada" : String) = "Texas")]
    unfold ST.final_liability
    rw [hf, hst]
    have h1 : ST.pythonRound 4500 = 4500 := by norm_num [ST.pythonRound]
    have h2 : ST.pythonRound 0 = 0 := by norm_num [ST.pythonRound]
    rw [h1, h2]

/-- C1 (corrected): the async matcher equals the per-asset
smallest-open-id FIFO algorithm whenever transaction ids increase along the
history (as the data model guarantees), with the gain of each emitted record
being matched x (sell price - buy price) and the total their sum; the
single_thread matcher instead ignores assets: it equals household-wide pool
FIFO matching whose per-sale gain is the sum of per-match gains plus
unmatched remainder x sell price. -/
theorem claim_C1_amended :
    (∀ txs : List AE.Txn, AE.IdsIncreasing txs →
        AE.process_capital_gains txs = SpecM.fifoGains txs)
    ∧ (∀ (p : ℚ) (lots : List AE.Lot) (q : ℚ),
        (AE.sellFIFO p q lots).gain
            = (((AE.sellFIFO p q lots).recs).map (fun r => r.gain_amount)).sum
          ∧ ∀ r ∈ (AE.sellFIFO p q lots).recs,
              r.gain_amount = r.matched_quantity * (p - r.buy_price))
    ∧ (∀ (purchases : List ST.Purchase) (sales : List ST.Sale),
        ST.calculate_capital_gains purchases sales
          = SpecM.poolGainsOf purchases sales) := by
  refine ⟨?_, ?_, ?_⟩
  · intro txs h
    exact SpecM.runTxns_eq_spec txs AE.emptyPortfolio
      (fun a => List.Pairwise.nil)
      (fun a b hb => absurd hb (List.not_mem_nil b)) h
  · intro p lots q
    exact AE.sellFIFO_gain_recs p lots q
  · intro purchases sales
    exact SpecM.runSales_eq_poolGains sales (ST.initLots purchases)

/-- Witness for C1: a two-transaction history with increasing ids, where
the async matcher and the specification machine agree. -/
theorem claim_C1_witness :
    AE.IdsIncreasing
        [⟨1, AE.TType.BUY, "A", 2, 10⟩, ⟨2, AE.TType.SELL, "A", 1, 30⟩]
      ∧ AE.process_capital_gains
          [⟨1, AE.TType.BUY, "A", 2, 10⟩, ⟨2, AE.TType.SELL, "A", 1, 30⟩]
        = SpecM.fifoGains
          [⟨1, AE.TType.BUY, "A", 2, 10⟩, ⟨2, AE.TType.SELL, "A", 1, 30⟩] := by
  have h : AE.IdsIncreasing
      [⟨1, AE.TType.BUY, "A", 2, 10⟩, ⟨2, AE.TType.SELL, "A", 1, 30⟩] := by
    unfold AE.IdsIncreasing
    decide
  exact ⟨h, claim_C1_amended.1 _ h⟩

/-- Counterexample for C1: the single_thread matcher matches a MSFT sale
against an AAPL lot (gain 20), whereas matching only against lots of the
own asset of the sale (as the claim states, and as the async variant does)
yields gain 0. -/
theorem claim_C1_cex :
    ST.calculate_capital_gains [⟨"AAPL", 1, 10⟩] [⟨"MSFT", 1, 30⟩] = 20
      ∧ AE.process_capital_gains
          [⟨1, AE.TType.BUY, "AAPL", 1, 10⟩, ⟨2, AE.TType.SELL, "MSFT", 1, 30⟩] = 0
      ∧ (20 : ℚ) ≠ 0 := by
  refine ⟨?_, ?_, by norm_num⟩
  · norm_num [ST.calculate_capital_gains, ST.initLots, ST.runSales,
      ST.matchSale, min_def]
  · norm_num [AE.process_capital_gains, AE.runTxns, AE.applyTxn,
      AE.emptyPortfolio, AE.sellFIFO, min_def]

/-- C2 (corrected): on an oversold sale the async matcher raises its
warning flag and realises exactly the gain of the open lots it could match;
the single_thread matcher gives the unmatched remainder a zero cost basis,
so the gain of the sale is the open-pool gain plus remainder x sell price; in
both variants processing is total and continues with the next transaction. -/
theorem claim_C2_amended :
    (∀ (p : ℚ) (lots : List AE.Lot) (q : ℚ), AE.availQty lots < q →
        (AE.sellFIFO p q lots).oversold = true
          ∧ (AE.sellFIFO p q lots).gain = AE.openGain p lots)
    ∧ (∀ (lots : List ST.PLot) (q sp : ℚ), ST.availQty lots ≤ q →
        q * sp - (ST.matchSale q lots).2.1
          = ST.openGain sp lots + (q - ST.availQty lots) * sp)
    ∧ (∀ (pf : AE.Portfolio) (t : AE.Txn) (ts : List AE.Txn),
        AE.runTxns pf (t :: ts)
          = (AE.applyTxn pf t).gain + AE.runTxns (AE.applyTxn pf t).portfolio ts) := by
  refine ⟨fun p lots q h => AE.sellFIFO_oversell p lots q h, ?_,
    fun pf t ts => rfl⟩
  intro lots q sp h
  obtain ⟨h1, h2⟩ := ST.matchSale_oversell lots q h
  rw [h2, ST.openGain_eq]
  ring

/-- Witness for C2: selling 2 shares against a single open lot of 1 share
at price 10 for 30 fires the warning and realises only 1 x (30 - 10). -/
theorem claim_C2_witness :
    AE.availQty [⟨1, 10, 1⟩] < 2
      ∧ ((AE.sellFIFO 30 2 [⟨1, 10, 1⟩]).oversold = true
        ∧ (AE.sellFIFO 30 2 [⟨1, 10, 1⟩]).gain = AE.openGain 30 [⟨1, 10, 1⟩]) := by
  have h : AE.availQty [⟨1, 10, 1⟩] < 2 := by norm_num [AE.availQty]
  exact ⟨h, claim_C2_amended.1 30 [⟨1, 10, 1⟩] 2 h⟩

/-- Counterexample for C2: for BUY 1 at 10 and SELL 2 at 30 of the same
asset, the claim mandates gain 20 (the remainder contributes nothing, as
the async variant computes), but the single_thread matcher reports 50,
counting the full proceeds of the unmatched share as gain. -/
theorem claim_C2_cex :
    ST.calculate_capital_gains [⟨"X", 1, 10⟩] [⟨"X", 2, 30⟩] = 50
      ∧ AE.process_capital_gains
          [⟨1, AE.TType.BUY, "X", 1, 10⟩, ⟨2, AE.TType.SELL, "X", 2, 30⟩] = 20
      ∧ (50 : ℚ) ≠ 20 := by
  refine ⟨?_, ?_, by norm_num⟩
  · norm_num [ST.calculate_capital_gains, ST.initLots, ST.runSales,
      ST.matchSale, min_def]
  · norm_num [AE.process_capital_gains, AE.runTxns, AE.applyTxn,
      AE.emptyPortfolio, AE.sellFIFO, min_def]

namespace AE

theorem round_dollar_nearest (q : ℚ) : |(round_dollar q : ℚ) - q| ≤ 1/2 := by
  unfold round_dollar
  by_cases h : 0 ≤ q
  · rw [if_pos h]
    have h1 : (⌊q + 1/2⌋ : ℚ) ≤ q + 1/2 := Int.floor_le _
    have h2 : q + 1/2 < ⌊q + 1/2⌋ + 1 := Int.lt_floor_add_one _
    rw [abs_le]
    constructor <;> push_cast <;> linarith
  · rw [if_neg h]
    have h1 : (⌊-q + 1/2⌋ : ℚ) ≤ -q + 1/2 := Int.floor_le _
    have h2 : -q + 1/2 < ⌊-q + 1/2⌋ + 1 := Int.lt_floor_add_one _
    rw [abs_le]
    constructor <;> push_cast <;> linarith

theorem round_dollar_half_up (n : ℤ) (hn : 0 ≤ n) :
    round_dollar ((n : ℚ) + 1/2) = n + 1 := by
  have hpos : (0:ℚ) ≤ (n : ℚ) + 1/2 := by
    have : (0:ℚ) ≤ (n:ℚ) := by exact_mod_cast hn
    linarith
  simp only [round_dollar, if_pos hpos]
  have he : (n : ℚ) + 1/2 + 1/2 = ((n + 1 : ℤ) : ℚ) := by
    push_cast
    ring
  rw [he, Int.floor_intCast]

end AE

namespace ST

theorem pythonRound_nearest (q : ℚ) : |(pythonRound q : ℚ) - q| ≤ 1/2 := by
  simp only [pythonRound]
  have h1 : (⌊q⌋ : ℚ) ≤ q := Int.floor_le q
  have h2 : q < ⌊q⌋ + 1 := Int.lt_floor_add_one q
  by_cases hr : q - ⌊q⌋ < 1/2
  · rw [if_pos hr, abs_le]
    constructor <;> push_cast <;> linarith
  · rw [if_neg hr]
    by_cases hr2 : 1/2 < q - ⌊q⌋
    · rw [if_pos hr2, abs_le]
      constructor <;> push_cast <;> linarith
    · rw [if_neg hr2]
      by_cases he : 2 ∣ ⌊q⌋
      · rw [if_pos he, abs_le]
        constructor <;> push_cast <;> linarith
      · rw [if_neg he, abs_le]
        constructor <;> push_cast <;> linarith

theorem pythonRound_half_even (n : ℤ) :
    pythonRound ((n : ℚ) + 1/2) = if 2 ∣ n then n else n + 1 := by
  have hf : ⌊(n : ℚ) + 1/2⌋ = n := by
    rw [add_comm, Int.floor_add_int]
    norm_num
  simp only [pythonRound, hf]
  have hr : ((n : ℚ) + 1/2) - n = 1/2 := by ring
  rw [hr]
  norm_num

end ST

/-- C4 (corrected): the async variant rounds once at the output boundary
with round-half-up (nearest whole unit, ties at .5 going up), while the
single_thread and shared_state variants round once at the boundary with
Python round, which sends a tie at .5 to the nearest even whole unit; all
three keep the totals at full precision until that single rounding. -/
theorem claim_C4_amended :
    (∀ q : ℚ, |(AE.round_dollar q : ℚ) - q| ≤ 1/2)
    ∧ (∀ n : ℤ, 0 ≤ n → AE.round_dollar ((n : ℚ) + 1/2) = n + 1)
    ∧ (∀ q : ℚ, |(ST.pythonRound q : ℚ) - q| ≤ 1/2)
    ∧ (∀ n : ℤ, ST.pythonRound ((n : ℚ) + 1/2) = if 2 ∣ n then n else n + 1)
    ∧ (∀ (state : String) (w2 ewma : ℚ) (children : ℕ) (donations : List ℚ)
        (txs : List AE.Txn),
        (AE.process_taxpayer state w2 ewma children donations txs).total_federal_tax
          = AE.round_dollar (AE.calculate_federal_tax w2
              (AE.process_capital_gains txs) ewma children donations).total)
    ∧ (∀ h : ST.Household,
        ST.final_liability h
          = (ST.pythonRound (ST.pipelineFed h).final_federal_tax,
             ST.pythonRound (ST.pipelineStateTax h)))
    ∧ (∀ fed st : ℚ, SS.final_liability fed st
        = (ST.pythonRound fed, ST.pythonRound st)) :=
  ⟨AE.round_dollar_nearest, AE.round_dollar_half_up, ST.pythonRound_nearest,
    ST.pythonRound_half_even, fun _ _ _ _ _ _ => rfl, fun _ => rfl,
    fun _ _ => rfl⟩

/-- Witness for C4: the async rounder sends 3.5 up to 4. -/
theorem claim_C4_witness :
    (0 : ℤ) ≤ 3 ∧ AE.round_dollar ((3 : ℚ) + 1/2) = 3 + 1 :=
  ⟨by norm_num, claim_C4_amended.2.1 3 (by norm_num)⟩

/-- Counterexample for C4: the household with w2 10010 and no other inputs
has an exact federal total of 0.5; the half-up rounding of the claim gives 1
(as the async round_dollar does), but the single_thread pipeline emits 0,
because Python round sends 0.5 to the even neighbour 0. -/
theorem claim_C4_cex :
    (ST.pipelineFed ⟨"California", 10010, 0, [], [], [], []⟩).final_federal_tax
        = 1/2
      ∧ (ST.final_liability ⟨"California", 10010, 0, [], [], [], []⟩).1 = 0
      ∧ AE.round_dollar (1/2) = 1
      ∧ (0 : ℤ) ≠ 1 := by
  have hf : (ST.pipelineFed ⟨"California", 10010, 0, [], [], [], []⟩).final_federal_tax
      = 1/2 := by
    norm_num [ST.pipelineFed, ST.pipelineGain, ST.pipelineEwma,
      ST.calculate_capital_gains, ST.initLots, ST.runSales, ST.calculate_ewma,
      ST.lookupAmount, ST.calculate_federal_tax, ST.bracketTaxFed, min_def]
  refine ⟨hf, ?_, ?_, by decide⟩
  · unfold ST.final_liability
    rw [hf]
    norm_num [ST.pythonRound]
  · norm_num [AE.round_dollar]
